/-
Verification of the MIPS pipeline viewer simulation core
(src/app/src/context/SimulationContext.tsx).

The development shallowly embeds the core functions of the source file:
`parseInstruction`, `detectHazards`, `calculatePrecedingStalls`,
`calculateNextState`, `startSimulation`, `pauseSimulation` and
`resumeSimulation`.  Machine words are natural numbers below 2^32;
the JavaScript record maps indexed by instruction position are embedded
as lists indexed by position.
-/
import Mathlib

namespace MipsViewer

/-! ## Instruction decoder

The source converts the instruction word to a 32-character binary string
(`parseInt(hex,16).toString(2).padStart(32,"0")`) and parses bit
substrings back with `parseInt(_, 2)`.  We embed the binary string of a
word `w < 2^32` as the list of its 32 bits, most significant first, and
substring extraction as `drop`/`take` on that list. -/

inductive InstructionType where
  | R : InstructionType
  | I : InstructionType
  | J : InstructionType
deriving DecidableEq

/-- Register usage record produced by `parseInstruction` in the source. -/
structure RegisterUsage where
  rs : Nat
  rt : Nat
  rd : Nat
  opcode : Nat
  funct : Nat
  type : InstructionType
deriving DecidableEq

def defaultUsage : RegisterUsage :=
  { rs := 0, rt := 0, rd := 0, opcode := 0, funct := 0, type := InstructionType.R }

/-- The 32-character binary string of `w` (for `w < 2^32`), most significant
bit first, as a list of bits: `toString(2).padStart(32, "0")`. -/
def toBits (w : Nat) : List Bool :=
  (List.range 32).map fun p => w.testBit (31 - p)

/-- JavaScript `parseInt(s, 2)` on a binary string, embedded on bit lists. -/
def bitsToNat (bs : List Bool) : Nat :=
  bs.foldl (fun a b => 2 * a + (if b then 1 else 0)) 0

/-- `parseInt(binary.substring(a, b), 2)` in the source. -/
def extractField (w a b : Nat) : Nat :=
  bitsToNat (((toBits w).drop a).take (b - a))

/-- Embedding of `parseInstruction` (SimulationContext.tsx:104-144) on the
numeric value of the 8-hex-digit instruction string. -/
def parseInstruction (word : Nat) : RegisterUsage :=
  let opcode := extractField word 0 6
  let rs := extractField word 6 11
  let rt := extractField word 11 16
  if opcode = 0 then
    { rs := rs, rt := rt, rd := extractField word 16 21, opcode := opcode,
      funct := extractField word 26 32, type := InstructionType.R }
  else if opcode = 2 ∨ opcode = 3 then
    { rs := rs, rt := rt, rd := if opcode = 3 then 31 else 0, opcode := opcode,
      funct := 0, type := InstructionType.J }
  else
    { rs := rs, rt := rt,
      rd := if (32 ≤ opcode ∧ opcode ≤ 37) ∨ (8 ≤ opcode ∧ opcode ≤ 15) then rt else 0,
      opcode := opcode, funct := 0, type := InstructionType.I }

/-! ### Bit-slice arithmetic -/

lemma bitsToNat_foldl (bs : List Bool) (a : Nat) :
    bs.foldl (fun x b => 2 * x + (if b then 1 else 0)) a
      = a * 2 ^ bs.length + bitsToNat bs := by
  induction bs generalizing a with
  | nil => simp [bitsToNat]
  | cons b t ih =>
    simp only [List.foldl_cons, List.length_cons, bitsToNat]
    rw [ih (2 * a + (if b then 1 else 0)), ih (2 * 0 + (if b then 1 else 0))]
    ring

/-- Bits `k + n - 1` down to `k` of `w`, most significant first. -/
def sliceBits (w n k : Nat) : List Bool :=
  (List.range n).map fun p => w.testBit (k + n - 1 - p)

lemma sliceBits_succ (w n k : Nat) :
    sliceBits w (n + 1) k = w.testBit (k + n) :: sliceBits w n k := by
  apply List.ext_getElem
  · simp [sliceBits]
  · intro i h1 h2
    rcases i with _ | i
    · simp only [sliceBits, List.getElem_map, List.getElem_range, List.getElem_cons_zero]
      congr 1
    · simp only [sliceBits, List.getElem_map, List.getElem_range, List.getElem_cons_succ]
      congr 1
      omega

lemma length_sliceBits (w n k : Nat) : (sliceBits w n k).length = n := by
  simp [sliceBits]

lemma bitsToNat_sliceBits (w k : Nat) : ∀ n, bitsToNat (sliceBits w n k) = w / 2 ^ k % 2 ^ n := by
  intro n
  induction n with
  | zero => simp [sliceBits, bitsToNat, Nat.mod_one]
  | succ n ih =>
    rw [sliceBits_succ]
    have h1 : bitsToNat (w.testBit (k + n) :: sliceBits w n k)
        = (if w.testBit (k + n) then 1 else 0) * 2 ^ n + bitsToNat (sliceBits w n k) := by
      unfold bitsToNat
      rw [List.foldl_cons, bitsToNat_foldl]
      simp [length_sliceBits, bitsToNat]
    rw [h1, ih]
    have hv : (if w.testBit (k + n) then (1 : Nat) else 0) = w / 2 ^ (k + n) % 2 := by
      rcases Nat.mod_two_eq_zero_or_one (w / 2 ^ (k + n)) with h | h <;>
        simp [Nat.testBit_to_div_mod, h]
    rw [hv]
    have hm : w / 2 ^ k % 2 ^ (n + 1)
        = w / 2 ^ k % 2 ^ n + 2 ^ n * (w / 2 ^ k / 2 ^ n % 2) := by
      rw [pow_succ]
      exact Nat.mod_mul
    have hd : w / 2 ^ k / 2 ^ n = w / 2 ^ (k + n) := by
      rw [Nat.div_div_eq_div_mul, ← pow_add]
    rw [hm, hd]
    ring

lemma extractField_eq (w a b : Nat) (hab : a ≤ b) (hb : b ≤ 32) :
    extractField w a b = w / 2 ^ (32 - b) % 2 ^ (b - a) := by
  have hlist : ((toBits w).drop a).take (b - a) = sliceBits w (b - a) (32 - b) := by
    apply List.ext_getElem
    · simp [toBits, length_sliceBits]
      omega
    · intro i h1 h2
      simp only [toBits, sliceBits, List.getElem_take, List.getElem_drop,
        List.getElem_map, List.getElem_range]
      congr 1
      simp only [List.length_take, List.length_drop, List.length_map,
        List.length_range] at h1
      omega
  unfold extractField
  rw [hlist, bitsToNat_sliceBits]

example : parseInstruction 0x00a63820
    = { rs := 5, rt := 6, rd := 7, opcode := 0, funct := 32, type := InstructionType.R } := by
  decide

example : parseInstruction 0x0c000000
    = { rs := 0, rt := 0, rd := 31, opcode := 3, funct := 0, type := InstructionType.J } := by
  decide

example : parseInstruction 0x20010000
    = { rs := 0, rt := 1, rd := 1, opcode := 8, funct := 0, type := InstructionType.I } := by
  decide

/-- C1: for every 32-bit instruction word, decode succeeds (it is a total
Lean function, hence total and deterministic) and returns kind R with
destination register equal to the rd field (bits 15:11) when the opcode is
0; kind J with destination register 31 when the opcode is 3 and 0 when the
opcode is 2; and kind I otherwise, with destination register equal to the
rt field when the opcode lies in [32,37] or in [8,15] and 0 otherwise. -/
theorem decode_table (w : Nat) (hw : w < 2 ^ 32) :
    (parseInstruction w).opcode = w / 2 ^ 26 ∧
    (parseInstruction w).rs = w / 2 ^ 21 % 32 ∧
    (parseInstruction w).rt = w / 2 ^ 16 % 32 ∧
    (w / 2 ^ 26 = 0 → (parseInstruction w).type = InstructionType.R ∧
      (parseInstruction w).rd = w / 2 ^ 11 % 32) ∧
    (w / 2 ^ 26 = 3 → (parseInstruction w).type = InstructionType.J ∧
      (parseInstruction w).rd = 31) ∧
    (w / 2 ^ 26 = 2 → (parseInstruction w).type = InstructionType.J ∧
      (parseInstruction w).rd = 0) ∧
    (w / 2 ^ 26 ≠ 0 → w / 2 ^ 26 ≠ 2 → w / 2 ^ 26 ≠ 3 →
      (parseInstruction w).type = InstructionType.I ∧
      (parseInstruction w).rd =
        if (32 ≤ w / 2 ^ 26 ∧ w / 2 ^ 26 ≤ 37) ∨ (8 ≤ w / 2 ^ 26 ∧ w / 2 ^ 26 ≤ 15)
        then w / 2 ^ 16 % 32 else 0) := by
  have hw' : w < 4294967296 := by norm_num at hw; exact hw
  have hop : extractField w 0 6 = w / 2 ^ 26 := by
    rw [extractField_eq w 0 6 (by norm_num) (by norm_num)]
    norm_num
    omega
  have hrs : extractField w 6 11 = w / 2 ^ 21 % 32 := by
    rw [extractField_eq w 6 11 (by norm_num) (by norm_num)]
    norm_num
  have hrt : extractField w 11 16 = w / 2 ^ 16 % 32 := by
    rw [extractField_eq w 11 16 (by norm_num) (by norm_num)]
    norm_num
  have hrd : extractField w 16 21 = w / 2 ^ 11 % 32 := by
    rw [extractField_eq w 16 21 (by norm_num) (by norm_num)]
    norm_num
  simp only [parseInstruction, hop, hrs, hrt, hrd]
  split_ifs with h0 h23 h3 hr1 hr2 <;>
    refine ⟨rfl, rfl, rfl, ?_, ?_, ?_, ?_⟩ <;> intros <;> simp_all

/-- Witness for `decode_table` at the word 0x00a63820 (an R-type add). -/
theorem decode_table_witness :
    0x00a63820 < 2 ^ 32 ∧
    (parseInstruction 0x00a63820).type = InstructionType.R ∧
    (parseInstruction 0x00a63820).rd = 0x00a63820 / 2 ^ 11 % 32 :=
  ⟨by norm_num,
   ((decode_table 0x00a63820 (by norm_num)).2.2.2.1 (by norm_num)).1,
   ((decode_table 0x00a63820 (by norm_num)).2.2.2.1 (by norm_num)).2⟩

/-! ## Hazard analyzer

Embedding of `detectHazards` (SimulationContext.tsx:147-284).  The loop
body for index `i` only reads `registerUsage`, so the three result maps
are embedded as lists built index-wise by `analyzeAt`. -/

inductive HazardType where
  | RAW : HazardType
  | WAW : HazardType
  | NONE : HazardType
deriving DecidableEq

structure HazardInfo where
  type : HazardType
  description : String
  canForward : Bool
  stallCycles : Nat
deriving DecidableEq

inductive StageName where
  | IF : StageName
  | ID : StageName
  | EX : StageName
  | MEM : StageName
  | WB : StageName
deriving DecidableEq

/-- Forwarding record; the source field names `from`/`to` are Lean keywords,
so they are embedded as `fromIndex`/`toIndex`. -/
structure ForwardingInfo where
  fromIndex : Nat
  toIndex : Nat
  fromStage : StageName
  toStage : StageName
  register : String
deriving DecidableEq

inductive SrcReg where
  | rs : SrcReg
  | rt : SrcReg
deriving DecidableEq

/-- One entry of the `rawHazards` array collected in the source loop. -/
structure RawMatch where
  sourceReg : SrcReg
  regNum : Nat
  fromInst : Nat
  distance : Nat
deriving DecidableEq

def defaultMatch : RawMatch := { sourceReg := SrcReg.rs, regNum := 0, fromInst := 0, distance := 0 }

/-- The initialization value of every hazard record. -/
def noHazard : HazardInfo :=
  { type := HazardType.NONE, description := "No hazard", canForward := false, stallCycles := 0 }

/-- The look-back window `j = max(0, i-2), ..., i-1` in ascending order. -/
def windowIdx (i : Nat) : List Nat :=
  (List.range i).filter (fun j => i ≤ j + 2)

/-- The `rawHazards` array collected for instruction `i`: for each window
index `j` whose destination is nonzero, an rs match then an rt match. -/
def rawMatchesAt (usage : List RegisterUsage) (i : Nat) : List RawMatch :=
  let cur := usage.getD i defaultUsage
  (windowIdx i).flatMap fun j =>
    let prev := usage.getD j defaultUsage
    if prev.rd = 0 then []
    else
      (if cur.rs = prev.rd then
        [{ sourceReg := SrcReg.rs, regNum := cur.rs, fromInst := j, distance := i - j }] else []) ++
      (if cur.rt = prev.rd then
        [{ sourceReg := SrcReg.rt, regNum := cur.rt, fromInst := j, distance := i - j }] else [])

/-- The match list the analyzer actually collects for instruction `i`:
index 0 and J-kind instructions are skipped by the loop, so their list
is empty. -/
def effectiveRawMatches (usage : List RegisterUsage) (i : Nat) : List RawMatch :=
  if i = 0 ∨ (usage.getD i defaultUsage).type = InstructionType.J then []
  else rawMatchesAt usage i

def descOfMatch (m : RawMatch) : String :=
  match m.sourceReg with
  | SrcReg.rs => "rs($" ++ Nat.repr m.regNum ++ ") depends on instruction " ++ Nat.repr m.fromInst
  | SrcReg.rt => "rt($" ++ Nat.repr m.regNum ++ ") depends on instruction " ++ Nat.repr m.fromInst

/-- `stallsNeeded = 3 - distance` for one match. -/
def matchVal (m : RawMatch) : Nat := 3 - m.distance

/-- One step of the `maxStallCycles`/`hazardDescription` accumulation:
update on strict increase only. -/
def stallStep (acc : Nat × String) (m : RawMatch) : Nat × String :=
  if acc.1 < matchVal m then (matchVal m, descOfMatch m) else acc

/-- The accumulated `(maxStallCycles, hazardDescription)` over the match
list, as computed when forwarding is disabled. -/
def stallScan (ms : List RawMatch) : Nat × String :=
  ms.foldl stallStep (0, "")

/-- The first window index triggering the WAW branch for instruction `i`
(the source scans the window and breaks at the first match). -/
def wawFind (usage : List RegisterUsage) (i : Nat) : Option Nat :=
  (windowIdx i).find? fun j =>
    ((usage.getD j defaultUsage).rd != 0) &&
    ((usage.getD i defaultUsage).rd == (usage.getD j defaultUsage).rd)

/-- The ForwardingInfo record built from one match when forwarding is enabled. -/
def forwardEdge (i : Nat) (m : RawMatch) : ForwardingInfo :=
  { fromIndex := m.fromInst, toIndex := i,
    fromStage := if m.distance = 1 then StageName.EX else StageName.MEM,
    toStage := StageName.EX,
    register := "$" ++ Nat.repr m.regNum }

/-- The loop body of `detectHazards` for index `i`: the hazard record, the
forwarding list and the stall count assigned to instruction `i`. -/
def analyzeAt (usage : List RegisterUsage) (forwardingEnabled : Bool) (i : Nat) :
    HazardInfo × List ForwardingInfo × Nat :=
  if i = 0 then (noHazard, [], 0)
  else
    let cur := usage.getD i defaultUsage
    if cur.type = InstructionType.J then (noHazard, [], 0)
    else
      let ms := rawMatchesAt usage i
      if ms.isEmpty then
        if cur.rd ≠ 0 then
          match wawFind usage i with
          | some _ =>
            ({ type := HazardType.WAW,
               description := "Both instructions write to $" ++ Nat.repr cur.rd,
               canForward := true, stallCycles := 0 }, [], 0)
          | none => (noHazard, [], 0)
        else (noHazard, [], 0)
      else
        let sc := if forwardingEnabled then ((0 : Nat), "") else stallScan ms
        let hz : HazardInfo :=
          { type := HazardType.RAW,
            description :=
              if sc.2 = "" then
                "Depends on previous instruction " ++ Nat.repr ((ms.headD defaultMatch).fromInst)
              else sc.2,
            canForward := forwardingEnabled,
            stallCycles := if forwardingEnabled then 0 else sc.1 }
        let fw := if forwardingEnabled then ms.map (forwardEdge i) else []
        let st := if forwardingEnabled = false ∧ 0 < sc.1 then sc.1 else 0
        (hz, fw, st)

def hazardInfoAt (usage : List RegisterUsage) (forwardingEnabled : Bool) (i : Nat) : HazardInfo :=
  (analyzeAt usage forwardingEnabled i).1

def forwardingsAt (usage : List RegisterUsage) (forwardingEnabled : Bool) (i : Nat) :
    List ForwardingInfo :=
  (analyzeAt usage forwardingEnabled i).2.1

def stallsAt (usage : List RegisterUsage) (forwardingEnabled : Bool) (i : Nat) : Nat :=
  (analyzeAt usage forwardingEnabled i).2.2

/-- Embedding of `detectHazards`: the `(hazards, forwardings, stalls)` maps
over all instruction indices. -/
def detectHazards (usage : List RegisterUsage) (forwardingEnabled : Bool) :
    List HazardInfo × List (List ForwardingInfo) × List Nat :=
  ((List.range usage.length).map (hazardInfoAt usage forwardingEnabled),
   (List.range usage.length).map (forwardingsAt usage forwardingEnabled),
   (List.range usage.length).map (stallsAt usage forwardingEnabled))

example :
    hazardInfoAt [parseInstruction 0x00a63820, parseInstruction 0x00e80820] false 1
      = { type := HazardType.RAW, description := "rs($7) depends on instruction 0",
          canForward := false, stallCycles := 2 } := by
  decide

example : stallsAt [parseInstruction 0x00a63820, parseInstruction 0x00e80820] false 1 = 2 := by
  decide

example :
    forwardingsAt [parseInstruction 0x00a63820, parseInstruction 0x00e80820] true 1
      = [{ fromIndex := 0, toIndex := 1, fromStage := StageName.EX, toStage := StageName.EX,
           register := "$7" }] := by
  decide

example :
    (hazardInfoAt [parseInstruction 0x00850820, parseInstruction 0x00430820] false 1).type
      = HazardType.WAW := by
  decide

/-! ### Properties of the stall accumulation -/

/-- The running maximum of `3 - distance` over a match list, seeded at `b`. -/
def foldMax (b : Nat) (ms : List RawMatch) : Nat :=
  ms.foldl (fun a m => max a (matchVal m)) b

lemma foldMax_nil (b : Nat) : foldMax b [] = b := rfl

lemma foldMax_cons (b : Nat) (m : RawMatch) (t : List RawMatch) :
    foldMax b (m :: t) = foldMax (max b (matchVal m)) t := rfl

lemma le_foldMax (b : Nat) (ms : List RawMatch) : b ≤ foldMax b ms := by
  induction ms generalizing b with
  | nil => exact Nat.le_refl b
  | cons m t ih =>
    rw [foldMax_cons]
    exact le_trans (Nat.le_max_left b (matchVal m)) (ih (max b (matchVal m)))

lemma matchVal_le_foldMax (b : Nat) (ms : List RawMatch) (m : RawMatch) (hm : m ∈ ms) :
    matchVal m ≤ foldMax b ms := by
  induction ms generalizing b with
  | nil => cases hm
  | cons x t ih =>
    rw [foldMax_cons]
    rcases List.mem_cons.mp hm with h | h
    · subst h
      exact le_trans (Nat.le_max_right b (matchVal m)) (le_foldMax _ t)
    · exact ih _ h

lemma stallScan_fst (ms : List RawMatch) : ∀ b d, (ms.foldl stallStep (b, d)).1 = foldMax b ms := by
  induction ms with
  | nil => intro b d; rfl
  | cons m t ih =>
    intro b d
    rw [List.foldl_cons, foldMax_cons, stallStep]
    by_cases h : b < matchVal m
    · rw [if_pos h, ih, Nat.max_eq_right (Nat.le_of_lt h)]
    · rw [if_neg h, ih, Nat.max_eq_left (Nat.le_of_not_lt h)]

lemma foldl_stallStep_const (ms : List RawMatch) (b : Nat) (d : String)
    (h : ∀ m ∈ ms, matchVal m ≤ b) : ms.foldl stallStep (b, d) = (b, d) := by
  induction ms with
  | nil => rfl
  | cons m t ih =>
    rw [List.foldl_cons, stallStep, if_neg (Nat.not_lt.mpr (h m (List.mem_cons_self m t)))]
    exact ih fun x hx => h x (List.mem_cons_of_mem m hx)

/-- The description accumulated by the strict-update fold is the one of the
first match attaining the overall maximum. -/
lemma stallScan_snd (ms : List RawMatch) : ∀ b d, b < foldMax b ms →
    ∃ m, ms.find? (fun x => matchVal x == foldMax b ms) = some m ∧
      (ms.foldl stallStep (b, d)).2 = descOfMatch m := by
  induction ms with
  | nil => intro b d h; rw [foldMax_nil] at h; omega
  | cons m t ih =>
    intro b d h
    rw [foldMax_cons] at h ⊢
    rw [List.foldl_cons, stallStep]
    by_cases hv : b < matchVal m
    · rw [if_pos hv]
      rw [Nat.max_eq_right (Nat.le_of_lt hv)] at h ⊢
      by_cases hM : foldMax (matchVal m) t = matchVal m
      · refine ⟨m, ?_, ?_⟩
        · rw [List.find?_cons_of_pos]
          simp [hM]
        · rw [foldl_stallStep_const]
          intro x hx
          calc matchVal x ≤ foldMax (matchVal m) t := matchVal_le_foldMax _ t x hx
            _ = matchVal m := hM
      · have hlt : matchVal m < foldMax (matchVal m) t :=
          Nat.lt_of_le_of_ne (le_foldMax _ t) (fun hEq => hM hEq.symm)
        obtain ⟨x, hfind, hsnd⟩ := ih (matchVal m) (descOfMatch m) hlt
        refine ⟨x, ?_, hsnd⟩
        rw [List.find?_cons_of_neg]
        · exact hfind
        · simp
          omega
    · rw [if_neg hv]
      rw [Nat.max_eq_left (Nat.le_of_not_lt hv)] at h ⊢
      obtain ⟨x, hfind, hsnd⟩ := ih b d h
      refine ⟨x, ?_, hsnd⟩
      rw [List.find?_cons_of_neg]
      · exact hfind
      · simp
        omega

lemma mem_windowIdx (i j : Nat) : j ∈ windowIdx i ↔ j < i ∧ i ≤ j + 2 := by
  simp [windowIdx]

/-- The collected matches are exactly the rs/rt reads of a nonzero
destination register written at distance 1 or 2. -/
lemma mem_rawMatchesAt (usage : List RegisterUsage) (i : Nat) (m : RawMatch) :
    m ∈ rawMatchesAt usage i ↔
      (m.fromInst < i ∧ i ≤ m.fromInst + 2 ∧ m.distance = i - m.fromInst ∧
       (usage.getD m.fromInst defaultUsage).rd ≠ 0 ∧
       ((m.sourceReg = SrcReg.rs ∧ m.regNum = (usage.getD i defaultUsage).rs ∧
          (usage.getD i defaultUsage).rs = (usage.getD m.fromInst defaultUsage).rd) ∨
        (m.sourceReg = SrcReg.rt ∧ m.regNum = (usage.getD i defaultUsage).rt ∧
          (usage.getD i defaultUsage).rt = (usage.getD m.fromInst defaultUsage).rd))) := by
  constructor
  · intro hm
    simp only [rawMatchesAt, List.mem_flatMap] at hm
    obtain ⟨j, hj, hmem⟩ := hm
    rw [mem_windowIdx] at hj
    split at hmem
    · cases hmem
    · rename_i hrd
      rcases List.mem_append.mp hmem with hcase | hcase <;> split at hcase <;>
        simp only [List.mem_singleton, List.not_mem_nil] at hcase <;> subst hcase <;>
        simp_all
  · intro ⟨h1, h2, h3, h4, hcase⟩
    simp only [rawMatchesAt, List.mem_flatMap]
    refine ⟨m.fromInst, (mem_windowIdx i m.fromInst).mpr ⟨h1, h2⟩, ?_⟩
    rw [if_neg h4]
    rcases hcase with ⟨hs, hr, heq⟩ | ⟨hs, hr, heq⟩
    · apply List.mem_append_left
      rw [if_pos heq]
      cases m
      simp_all
    · apply List.mem_append_right
      rw [if_pos heq]
      cases m
      simp_all

lemma distance_bounds (usage : List RegisterUsage) (i : Nat) (m : RawMatch)
    (hm : m ∈ rawMatchesAt usage i) : 1 ≤ m.distance ∧ m.distance ≤ 2 := by
  have h := (mem_rawMatchesAt usage i m).mp hm
  omega

lemma one_le_matchVal (usage : List RegisterUsage) (i : Nat) (m : RawMatch)
    (hm : m ∈ rawMatchesAt usage i) : 1 ≤ matchVal m := by
  have h := distance_bounds usage i m hm
  unfold matchVal
  omega

lemma descOfMatch_ne_empty (m : RawMatch) : descOfMatch m ≠ "" := by
  cases h : m.sourceReg <;> simp only [descOfMatch, h] <;> intro hEq <;>
    have hlen := congrArg String.length hEq <;>
    simp [String.length_append] at hlen <;>
    exact absurd hlen.1.1.1 (by decide)

/-- The reduction of `analyzeAt` on a non-J instruction at `i ≥ 1` with a
nonempty match list and forwarding disabled. -/
lemma analyzeAt_raw_noforward (usage : List RegisterUsage) (i : Nat)
    (hi : 1 ≤ i) (hJ : (usage.getD i defaultUsage).type ≠ InstructionType.J)
    (hne : rawMatchesAt usage i ≠ []) :
    analyzeAt usage false i =
      ({ type := HazardType.RAW,
         description :=
           if (stallScan (rawMatchesAt usage i)).2 = "" then
             "Depends on previous instruction "
               ++ Nat.repr (((rawMatchesAt usage i).headD defaultMatch).fromInst)
           else (stallScan (rawMatchesAt usage i)).2,
         canForward := false,
         stallCycles := (stallScan (rawMatchesAt usage i)).1 },
       [],
       if 0 < (stallScan (rawMatchesAt usage i)).1 then (stallScan (rawMatchesAt usage i)).1
       else 0) := by
  rw [analyzeAt, if_neg (by omega : ¬ i = 0)]
  simp only [if_neg hJ]
  rw [if_neg (by simp [List.isEmpty_iff, hne] : ¬ ((rawMatchesAt usage i).isEmpty = true))]
  simp

/-- The reduction of `analyzeAt` on a skipped instruction (index 0 or kind J). -/
lemma analyzeAt_skip (usage : List RegisterUsage) (fwd : Bool) (i : Nat)
    (h : i = 0 ∨ (usage.getD i defaultUsage).type = InstructionType.J) :
    analyzeAt usage fwd i = (noHazard, [], 0) := by
  rcases h with h | h
  · rw [analyzeAt, if_pos h]
  · rw [analyzeAt]
    split
    · rfl
    · simp only [if_pos h]

/-- The reduction of `analyzeAt` on a non-J instruction at `i ≥ 1` with a
nonempty match list and forwarding enabled. -/
lemma analyzeAt_raw_forward (usage : List RegisterUsage) (i : Nat)
    (hi : 1 ≤ i) (hJ : (usage.getD i defaultUsage).type ≠ InstructionType.J)
    (hne : rawMatchesAt usage i ≠ []) :
    analyzeAt usage true i =
      ({ type := HazardType.RAW,
         description := "Depends on previous instruction "
           ++ Nat.repr (((rawMatchesAt usage i).headD defaultMatch).fromInst),
         canForward := true,
         stallCycles := 0 },
       (rawMatchesAt usage i).map (forwardEdge i),
       0) := by
  rw [analyzeAt, if_neg (by omega : ¬ i = 0)]
  simp only [if_neg hJ]
  rw [if_neg (by simp [List.isEmpty_iff, hne] : ¬ ((rawMatchesAt usage i).isEmpty = true))]
  simp

/-- The reduction of `analyzeAt` on a non-J instruction at `i ≥ 1` with an
empty match list: the WAW branch. -/
lemma analyzeAt_nomatch (usage : List RegisterUsage) (fwd : Bool) (i : Nat)
    (hi : 1 ≤ i) (hJ : (usage.getD i defaultUsage).type ≠ InstructionType.J)
    (hraw : rawMatchesAt usage i = []) :
    analyzeAt usage fwd i =
      (if (usage.getD i defaultUsage).rd ≠ 0 then
        match wawFind usage i with
        | some _ =>
          ({ type := HazardType.WAW,
             description := "Both instructions write to $"
               ++ Nat.repr (usage.getD i defaultUsage).rd,
             canForward := true, stallCycles := 0 }, [], 0)
        | none => (noHazard, [], 0)
      else (noHazard, [], 0)) := by
  rw [analyzeAt, if_neg (by omega : ¬ i = 0)]
  simp only [if_neg hJ]
  rw [if_pos (by simp [List.isEmpty_iff, hraw] : (rawMatchesAt usage i).isEmpty = true)]

/-- C2 as frozen is refuted by the code: a J-kind instruction at index 1
whose rs field equals the nonzero destination register of the instruction
at distance 1 still receives hazard record NONE with zero stalls, because
the analyzer skips J-kind consumers. -/
theorem raw_skips_jump_consumer_counterexample :
    (parseInstruction 0x08200000).type = InstructionType.J ∧
    (parseInstruction 0x08200000).rs = (parseInstruction 0x20010000).rd ∧
    (parseInstruction 0x20010000).rd ≠ 0 ∧
    hazardInfoAt [parseInstruction 0x20010000, parseInstruction 0x08200000] false 1 = noHazard ∧
    stallsAt [parseInstruction 0x20010000, parseInstruction 0x08200000] false 1 = 0 := by
  decide

/-- C2 (amended: the consuming instruction must additionally be of non-J
kind; the analyzer skips J-kind consumers entirely): with forwarding
disabled, an instruction at index `i ≥ 1` of non-J kind whose rs or rt
equals the destination register of an instruction at distance 1 or 2 with
nonzero destination gets hazard kind RAW with stall count equal to the
maximum over all such matches of `3 - distance`, and the description is
taken from the first match attaining that maximum (window indices in
ascending order, rs before rt). -/
theorem analyze_noforward_raw_stalls (usage : List RegisterUsage) (i : Nat)
    (hi : 1 ≤ i) (hJ : (usage.getD i defaultUsage).type ≠ InstructionType.J) :
    (∀ m, m ∈ rawMatchesAt usage i ↔
      (m.fromInst < i ∧ i ≤ m.fromInst + 2 ∧ m.distance = i - m.fromInst ∧
       (usage.getD m.fromInst defaultUsage).rd ≠ 0 ∧
       ((m.sourceReg = SrcReg.rs ∧ m.regNum = (usage.getD i defaultUsage).rs ∧
          (usage.getD i defaultUsage).rs = (usage.getD m.fromInst defaultUsage).rd) ∨
        (m.sourceReg = SrcReg.rt ∧ m.regNum = (usage.getD i defaultUsage).rt ∧
          (usage.getD i defaultUsage).rt = (usage.getD m.fromInst defaultUsage).rd)))) ∧
    (rawMatchesAt usage i ≠ [] →
      (hazardInfoAt usage false i).type = HazardType.RAW ∧
      (hazardInfoAt usage false i).stallCycles = foldMax 0 (rawMatchesAt usage i) ∧
      stallsAt usage false i = foldMax 0 (rawMatchesAt usage i) ∧
      (∀ m ∈ rawMatchesAt usage i, matchVal m ≤ foldMax 0 (rawMatchesAt usage i)) ∧
      (∃ m, (rawMatchesAt usage i).find?
          (fun x => matchVal x == foldMax 0 (rawMatchesAt usage i)) = some m ∧
        (hazardInfoAt usage false i).description = descOfMatch m)) := by
  refine ⟨mem_rawMatchesAt usage i, fun hne => ?_⟩
  obtain ⟨m0, hm0⟩ := List.exists_mem_of_ne_nil _ hne
  have hpos : 1 ≤ foldMax 0 (rawMatchesAt usage i) :=
    le_trans (one_le_matchVal usage i m0 hm0) (matchVal_le_foldMax 0 _ m0 hm0)
  have hred := analyzeAt_raw_noforward usage i hi hJ hne
  have hfst : (stallScan (rawMatchesAt usage i)).1 = foldMax 0 (rawMatchesAt usage i) :=
    stallScan_fst _ 0 ""
  obtain ⟨m, hfind, hsnd⟩ := stallScan_snd (rawMatchesAt usage i) 0 "" (by omega)
  refine ⟨?_, ?_, ?_, fun x hx => matchVal_le_foldMax 0 _ x hx, m, hfind, ?_⟩
  · rw [hazardInfoAt, hred]
  · rw [hazardInfoAt, hred]
    exact hfst
  · rw [stallsAt, hred]
    simp only
    rw [if_pos (by omega)]
    exact hfst
  · rw [hazardInfoAt, hred]
    simp only
    rw [if_neg]
    · exact hsnd
    · rw [show (stallScan (rawMatchesAt usage i)).2 = descOfMatch m from hsnd]
      exact descOfMatch_ne_empty m

/-- Witness for `analyze_noforward_raw_stalls`: spec Scenario B, where the
second instruction reads register 7 written by the first at distance 1. -/
theorem analyze_noforward_raw_stalls_witness :
    (([parseInstruction 0x00a63820, parseInstruction 0x00e80820].getD 1
        defaultUsage).type ≠ InstructionType.J) ∧
    rawMatchesAt [parseInstruction 0x00a63820, parseInstruction 0x00e80820] 1 ≠ [] ∧
    (hazardInfoAt [parseInstruction 0x00a63820, parseInstruction 0x00e80820] false 1).type
      = HazardType.RAW ∧
    (hazardInfoAt [parseInstruction 0x00a63820, parseInstruction 0x00e80820] false 1).stallCycles
      = foldMax 0 (rawMatchesAt [parseInstruction 0x00a63820, parseInstruction 0x00e80820] 1) :=
  ⟨by decide, by decide,
   (((analyze_noforward_raw_stalls
      [parseInstruction 0x00a63820, parseInstruction 0x00e80820] 1
      (by omega) (by decide)).2 (by decide))).1,
   (((analyze_noforward_raw_stalls
      [parseInstruction 0x00a63820, parseInstruction 0x00e80820] 1
      (by omega) (by decide)).2 (by decide))).2.1⟩

/-- C3: with forwarding enabled, every instruction with at least one RAW
match (as collected by the analyzer) has stall count 0 and exactly one
ForwardingEdge per match, with fromStage EX at distance 1 and MEM at
distance 2 and toStage EX in every edge; instructions with no RAW match
have no forwarding edges; stalls are always zero. -/
theorem analyze_forwarding_edges (usage : List RegisterUsage) (i : Nat) :
    (effectiveRawMatches usage i ≠ [] →
      (hazardInfoAt usage true i).stallCycles = 0 ∧
      forwardingsAt usage true i = (effectiveRawMatches usage i).map (forwardEdge i) ∧
      (∀ m ∈ effectiveRawMatches usage i,
        (forwardEdge i m).toStage = StageName.EX ∧
        (forwardEdge i m).fromStage
          = (if m.distance = 1 then StageName.EX else StageName.MEM) ∧
        (m.distance = 1 ∨ m.distance = 2) ∧
        (forwardEdge i m).fromIndex = m.fromInst ∧
        (forwardEdge i m).toIndex = i)) ∧
    (effectiveRawMatches usage i = [] → forwardingsAt usage true i = []) ∧
    stallsAt usage true i = 0 := by
  by_cases hskip : i = 0 ∨ (usage.getD i defaultUsage).type = InstructionType.J
  · have hred := analyzeAt_skip usage true i hskip
    have heff : effectiveRawMatches usage i = [] := by
      rw [effectiveRawMatches, if_pos hskip]
    refine ⟨fun hne => absurd heff hne, fun _ => ?_, ?_⟩
    · rw [forwardingsAt, hred]
    · rw [stallsAt, hred]
  · push_neg at hskip
    obtain ⟨h0, hJ⟩ := hskip
    have hi : 1 ≤ i := by omega
    have heff : effectiveRawMatches usage i = rawMatchesAt usage i := by
      rw [effectiveRawMatches, if_neg (by tauto)]
    rw [heff]
    by_cases hne : rawMatchesAt usage i = []
    · refine ⟨fun h => absurd hne h, fun _ => ?_, ?_⟩ <;>
        · first
          | rw [forwardingsAt, analyzeAt_nomatch usage true i hi hJ hne]
          | rw [stallsAt, analyzeAt_nomatch usage true i hi hJ hne]
          split
          · split <;> rfl
          · rfl
    · have hred := analyzeAt_raw_forward usage i hi hJ hne
      refine ⟨fun _ => ⟨?_, ?_, fun m hm => ⟨rfl, rfl, ?_, rfl, rfl⟩⟩, fun h => absurd h hne, ?_⟩
      · rw [hazardInfoAt, hred]
      · rw [forwardingsAt, hred]
      · have := distance_bounds usage i m hm
        omega
      · rw [stallsAt, hred]

/-- Witness for `analyze_forwarding_edges`: spec Scenario C (Scenario B with
forwarding enabled) produces exactly one EX-to-EX edge and no stalls. -/
theorem analyze_forwarding_edges_witness :
    effectiveRawMatches [parseInstruction 0x00a63820, parseInstruction 0x00e80820] 1 ≠ [] ∧
    (hazardInfoAt [parseInstruction 0x00a63820, parseInstruction 0x00e80820] true 1).stallCycles
      = 0 ∧
    forwardingsAt [parseInstruction 0x00a63820, parseInstruction 0x00e80820] true 1
      = (effectiveRawMatches [parseInstruction 0x00a63820, parseInstruction 0x00e80820] 1).map
          (forwardEdge 1) :=
  ⟨by decide,
   (((analyze_forwarding_edges
      [parseInstruction 0x00a63820, parseInstruction 0x00e80820] 1).1 (by decide))).1,
   (((analyze_forwarding_edges
      [parseInstruction 0x00a63820, parseInstruction 0x00e80820] 1).1 (by decide))).2.1⟩

/-- C4 as frozen is refuted by the code: a `jal` (opcode 3, kind J) writes
register 31, and the analyzer does treat it as the source of a RAW hazard
of a later instruction — here the instruction at index 1 reads register 31
and receives a RAW record and a forwarding edge whose source index 0 is the
J-kind `jal`. -/
theorem jump_source_counterexample :
    (parseInstruction 0x0c000000).type = InstructionType.J ∧
    (parseInstruction 0x0c000000).rd = 31 ∧
    (hazardInfoAt [parseInstruction 0x0c000000, parseInstruction 0x03e00820] true 1).type
      = HazardType.RAW ∧
    forwardingsAt [parseInstruction 0x0c000000, parseInstruction 0x03e00820] true 1
      = [{ fromIndex := 0, toIndex := 1, fromStage := StageName.EX,
           toStage := StageName.EX, register := "$31" }] := by
  decide

/-- C4 (amended: index 0 and J-kind instructions always receive hazard
record NONE with zero stalls and no forwarding edges, and a J-kind
instruction that writes no register — opcode 2, destination 0 — is never
the source of a RAW or WAW hazard; a `jal` has destination 31 and can be a
source). -/
theorem jump_and_first_no_hazard (usage : List RegisterUsage) (fwd : Bool) (i : Nat) :
    ((i = 0 ∨ (usage.getD i defaultUsage).type = InstructionType.J) →
      hazardInfoAt usage fwd i = noHazard ∧
      forwardingsAt usage fwd i = [] ∧
      stallsAt usage fwd i = 0) ∧
    (∀ m ∈ effectiveRawMatches usage i,
      ¬((usage.getD m.fromInst defaultUsage).type = InstructionType.J ∧
        (usage.getD m.fromInst defaultUsage).rd = 0)) ∧
    (∀ j, wawFind usage i = some j →
      ¬((usage.getD j defaultUsage).type = InstructionType.J ∧
        (usage.getD j defaultUsage).rd = 0)) := by
  refine ⟨fun hskip => ?_, fun m hm => ?_, fun j hj => ?_⟩
  · have hred := analyzeAt_skip usage fwd i hskip
    exact ⟨by rw [hazardInfoAt, hred], by rw [forwardingsAt, hred], by rw [stallsAt, hred]⟩
  · have hmem : m ∈ rawMatchesAt usage i := by
      rw [effectiveRawMatches] at hm
      split at hm
      · cases hm
      · exact hm
    have h := (mem_rawMatchesAt usage i m).mp hmem
    intro hc
    exact h.2.2.2.1 hc.2
  · have hp := List.find?_some hj
    simp only [Bool.and_eq_true, bne_iff_ne, ne_eq] at hp
    intro hc
    exact hp.1 hc.2

/-- Witness for `jump_and_first_no_hazard`: a plain jump at index 1 after an
add gets record NONE. -/
theorem jump_and_first_no_hazard_witness :
    (([parseInstruction 0x00a63820, parseInstruction 0x08200000].getD 1
        defaultUsage).type = InstructionType.J) ∧
    hazardInfoAt [parseInstruction 0x00a63820, parseInstruction 0x08200000] false 1 = noHazard ∧
    forwardingsAt [parseInstruction 0x00a63820, parseInstruction 0x08200000] false 1 = [] ∧
    stallsAt [parseInstruction 0x00a63820, parseInstruction 0x08200000] false 1 = 0 :=
  ⟨by decide,
   (jump_and_first_no_hazard
     [parseInstruction 0x00a63820, parseInstruction 0x08200000] false 1).1
     (Or.inr (by decide))⟩

/-- C5: at index `i ≥ 1` of non-J kind with no RAW match and nonzero
destination register, if some instruction at distance 1 or 2 has the
identical nonzero destination register, the record is WAW with
forwardable true and zero stalls; if neither a RAW nor a WAW match exists
the record is NONE. -/
theorem waw_detection (usage : List RegisterUsage) (fwd : Bool) (i : Nat)
    (hi : 1 ≤ i) (hJ : (usage.getD i defaultUsage).type ≠ InstructionType.J)
    (hraw : rawMatchesAt usage i = []) :
    ((usage.getD i defaultUsage).rd ≠ 0 →
      (∃ j, j < i ∧ i ≤ j + 2 ∧ (usage.getD j defaultUsage).rd ≠ 0 ∧
        (usage.getD j defaultUsage).rd = (usage.getD i defaultUsage).rd) →
      hazardInfoAt usage fwd i =
        { type := HazardType.WAW,
          description := "Both instructions write to $"
            ++ Nat.repr (usage.getD i defaultUsage).rd,
          canForward := true, stallCycles := 0 } ∧
      stallsAt usage fwd i = 0 ∧ forwardingsAt usage fwd i = []) ∧
    ((¬ ∃ j, j < i ∧ i ≤ j + 2 ∧ (usage.getD j defaultUsage).rd ≠ 0 ∧
        (usage.getD j defaultUsage).rd = (usage.getD i defaultUsage).rd) →
      hazardInfoAt usage fwd i = noHazard ∧
      stallsAt usage fwd i = 0 ∧ forwardingsAt usage fwd i = []) := by
  have hred := analyzeAt_nomatch usage fwd i hi hJ hraw
  constructor
  · intro hrd hex
    obtain ⟨j, hj1, hj2, hj3, hj4⟩ := hex
    have hsome : (wawFind usage i).isSome = true := by
      rw [wawFind, List.find?_isSome]
      refine ⟨j, (mem_windowIdx i j).mpr ⟨hj1, hj2⟩, ?_⟩
      simp only [Bool.and_eq_true, bne_iff_ne, ne_eq, beq_iff_eq]
      exact ⟨hj3, hj4.symm⟩
    obtain ⟨j0, hj0⟩ := Option.isSome_iff_exists.mp hsome
    rw [hazardInfoAt, stallsAt, forwardingsAt, hred, if_pos hrd, hj0]
    exact ⟨rfl, rfl, rfl⟩
  · intro hnex
    have hnone : wawFind usage i = none := by
      rw [wawFind, List.find?_eq_none]
      intro j hj
      rw [mem_windowIdx] at hj
      simp only [Bool.and_eq_true, bne_iff_ne, ne_eq, beq_iff_eq, not_and]
      intro hjrd heq
      exact hnex ⟨j, hj.1, hj.2, hjrd, heq.symm⟩
    rw [hazardInfoAt, stallsAt, forwardingsAt, hred]
    by_cases hrd : (usage.getD i defaultUsage).rd ≠ 0
    · rw [if_pos hrd, hnone]
      exact ⟨rfl, rfl, rfl⟩
    · rw [if_neg hrd]
      exact ⟨rfl, rfl, rfl⟩

/-- Witness for `waw_detection`: spec Scenario D, two adds both writing
register 1 with no read dependency. -/
theorem waw_detection_witness :
    rawMatchesAt [parseInstruction 0x00850820, parseInstruction 0x00430820] 1 = [] ∧
    (hazardInfoAt [parseInstruction 0x00850820, parseInstruction 0x00430820] false 1).type
      = HazardType.WAW ∧
    (hazardInfoAt [parseInstruction 0x00850820, parseInstruction 0x00430820] false 1).stallCycles
      = 0 :=
  ⟨by decide,
   by
    have h := ((waw_detection [parseInstruction 0x00850820, parseInstruction 0x00430820]
      false 1 (by omega) (by decide) (by decide)).1 (by decide)
      ⟨0, by omega, by omega, by decide, by decide⟩).1
    rw [h],
   by
    have h := ((waw_detection [parseInstruction 0x00850820, parseInstruction 0x00430820]
      false 1 (by omega) (by decide) (by decide)).1 (by decide)
      ⟨0, by omega, by omega, by decide, by decide⟩).1
    rw [h]⟩

/-! ## Pipeline state machine

Embedding of the simulation state and of `calculateNextState`
(SimulationContext.tsx:299-374), `startSimulation` (413-477),
`resetSimulation` (405-411), `pauseSimulation` (479-487) and
`resumeSimulation` (489-502).  The per-index record maps are lists indexed
by instruction position; JavaScript booleans are `Bool`. -/

def DEFAULT_STAGE_COUNT : Nat := 5

structure SimulationState where
  instructions : List Nat
  currentCycle : Nat
  maxCycles : Nat
  isRunning : Bool
  stageCount : Nat
  instructionStages : List (Option Nat)
  isFinished : Bool
  registerUsage : List RegisterUsage
  hazards : List HazardInfo
  forwardings : List (List ForwardingInfo)
  stalls : List Nat
  currentStallCycles : Nat
  forwardingEnabled : Bool
deriving DecidableEq

def initialState : SimulationState :=
  { instructions := [], currentCycle := 0, maxCycles := 0, isRunning := false,
    stageCount := DEFAULT_STAGE_COUNT, instructionStages := [], isFinished := false,
    registerUsage := [], hazards := [], forwardings := [], stalls := [],
    currentStallCycles := 0, forwardingEnabled := true }

/-- Embedding of `calculatePrecedingStalls` (287-296): the sum of the stall
counts of all instructions before `index`. -/
def calculatePrecedingStalls (stalls : List Nat) (index : Nat) : Nat :=
  (stalls.take index).sum

/-- `stageIndex = nextCycle - index - 1 - precedingStalls` (334), which can
be negative, hence an integer. -/
def stageIndexOf (stalls : List Nat) (c k : Nat) : Int :=
  (c : Int) - k - 1 - (calculatePrecedingStalls stalls k : Int)

/-- The per-instruction stage mapping computed for cycle `c` (327-352). -/
def computeStages (stalls : List Nat) (stageCount n c : Nat) : List (Option Nat) :=
  (List.range n).map fun k =>
    let si := stageIndexOf stalls c k
    if 0 ≤ si ∧ si < (stageCount : Int) then some si.toNat else none

/-- The body of the stall-trigger check inside the stage loop (341-348):
a stall is armed when an instruction sits at stage index 1 with a nonzero
own stall count and no stall is already armed. -/
def triggerStep (stalls : List Nat) (stageCount c acc k : Nat) : Nat :=
  let si := stageIndexOf stalls c k
  if 0 ≤ si ∧ si < (stageCount : Int) then
    (if si = 1 ∧ 0 < stalls.getD k 0 ∧ acc = 0 then stalls.getD k 0 else acc)
  else acc

/-- The `newStallCycles` value after the stage loop for cycle `c`. -/
def triggerStall (stalls : List Nat) (stageCount n c init : Nat) : Nat :=
  (List.range n).foldl (triggerStep stalls stageCount c) init

/-- `completionCycle = numInstructions + stageCount - 1 + totalStallCycles`
(355-361), 0 for an empty instruction list. -/
def completionOf (s : SimulationState) : Nat :=
  if 0 < s.instructions.length then
    s.instructions.length + s.stageCount - 1 + s.stalls.sum
  else 0

/-- Embedding of `calculateNextState` (299-374). -/
def calculateNextState (s : SimulationState) : SimulationState :=
  if !s.isRunning || s.isFinished then s
  else
    let nextCycle := s.currentCycle + 1
    if 0 < s.currentStallCycles then
      { s with currentCycle := nextCycle,
               instructionStages := s.instructionStages,
               currentStallCycles := s.currentStallCycles - 1 }
    else
      let totalStallCycles := s.stalls.sum
      let newInstructionStages :=
        computeStages s.stalls s.stageCount s.instructions.length nextCycle
      let newStallCycles :=
        triggerStall s.stalls s.stageCount s.instructions.length nextCycle s.currentStallCycles
      let completionCycle :=
        if 0 < s.instructions.length then
          s.instructions.length + s.stageCount - 1 + totalStallCycles
        else 0
      let fin : Bool := decide (completionCycle < nextCycle)
      { s with currentCycle := if fin then completionCycle else nextCycle,
               instructionStages := newInstructionStages,
               isRunning := !fin,
               isFinished := fin,
               currentStallCycles := newStallCycles }

/-- Embedding of `resetSimulation` (405-411): back to the initial state,
preserving the forwarding flag. -/
def resetSimulation (prev : SimulationState) : SimulationState :=
  { initialState with forwardingEnabled := prev.forwardingEnabled }

/-- Embedding of `startSimulation` (413-477) on the numeric values of the
submitted instruction words. -/
def startSimulation (prev : SimulationState) (submittedInstructions : List Nat) :
    SimulationState :=
  if submittedInstructions.isEmpty then resetSimulation prev
  else
    let registerUsage := submittedInstructions.map parseInstruction
    let res := detectHazards registerUsage prev.forwardingEnabled
    let stalls := res.2.2
    let totalStallCycles := stalls.sum
    let calculatedMaxCycles :=
      submittedInstructions.length + DEFAULT_STAGE_COUNT - 1 + totalStallCycles
    let initialStages := (List.range submittedInstructions.length).map fun (index : Nat) =>
      let si : Int := 1 - (index : Int) - 1
      if 0 ≤ si ∧ si < (DEFAULT_STAGE_COUNT : Int) then some si.toNat else none
    { instructions := submittedInstructions,
      currentCycle := 1,
      maxCycles := calculatedMaxCycles,
      isRunning := true,
      stageCount := DEFAULT_STAGE_COUNT,
      instructionStages := initialStages,
      isFinished := false,
      registerUsage := registerUsage,
      hazards := res.1,
      forwardings := res.2.1,
      stalls := stalls,
      currentStallCycles := 0,
      forwardingEnabled := prev.forwardingEnabled }

/-- Embedding of `pauseSimulation` (479-487). -/
def pauseSimulation (s : SimulationState) : SimulationState :=
  if s.isRunning = true then { s with isRunning := false } else s

/-- Embedding of `resumeSimulation` (489-502). -/
def resumeSimulation (s : SimulationState) : SimulationState :=
  if s.isRunning = false ∧ 0 < s.currentCycle ∧ s.isFinished = false then
    { s with isRunning := true }
  else s

/-- The states of a started run: `startSimulation` on a nonempty list
followed by any sequence of lifecycle calls. -/
inductive Reachable : SimulationState → Prop where
  | start (prev : SimulationState) (instrs : List Nat) (h : instrs ≠ []) :
      Reachable (startSimulation prev instrs)
  | step (s : SimulationState) (h : Reachable s) : Reachable (calculateNextState s)
  | pause (s : SimulationState) (h : Reachable s) : Reachable (pauseSimulation s)
  | resume (s : SimulationState) (h : Reachable s) : Reachable (resumeSimulation s)

/-! ### Reduction lemmas for `calculateNextState` -/

lemma calculateNextState_not_running (s : SimulationState)
    (h : s.isRunning = false ∨ s.isFinished = true) : calculateNextState s = s := by
  rw [calculateNextState]
  rcases h with h | h <;> simp [h]

lemma calculateNextState_stall (s : SimulationState)
    (hr : s.isRunning = true) (hf : s.isFinished = false)
    (hst : 0 < s.currentStallCycles) :
    calculateNextState s =
      { s with currentCycle := s.currentCycle + 1,
               currentStallCycles := s.currentStallCycles - 1 } := by
  rw [calculateNextState]
  simp [hr, hf, hst]

lemma calculateNextState_normal_fin (s : SimulationState)
    (hr : s.isRunning = true) (hf : s.isFinished = false)
    (hst : s.currentStallCycles = 0) (hfin : completionOf s < s.currentCycle + 1) :
    calculateNextState s =
      { s with currentCycle := completionOf s,
               instructionStages :=
                 computeStages s.stalls s.stageCount s.instructions.length (s.currentCycle + 1),
               isRunning := false,
               isFinished := true,
               currentStallCycles :=
                 triggerStall s.stalls s.stageCount s.instructions.length
                   (s.currentCycle + 1) s.currentStallCycles } := by
  rw [calculateNextState]
  rw [completionOf] at hfin
  simp [hr, hf, hst, hfin, completionOf]

lemma calculateNextState_normal_notfin (s : SimulationState)
    (hr : s.isRunning = true) (hf : s.isFinished = false)
    (hst : s.currentStallCycles = 0) (hfin : ¬ completionOf s < s.currentCycle + 1) :
    calculateNextState s =
      { s with currentCycle := s.currentCycle + 1,
               instructionStages :=
                 computeStages s.stalls s.stageCount s.instructions.length (s.currentCycle + 1),
               isRunning := true,
               isFinished := false,
               currentStallCycles :=
                 triggerStall s.stalls s.stageCount s.instructions.length
                   (s.currentCycle + 1) s.currentStallCycles } := by
  rw [calculateNextState]
  rw [completionOf] at hfin
  simp [hr, hf, hst, hfin]

/-! ### Arithmetic facts about stall sums and the trigger fold -/

lemma take_sum_le (l : List Nat) (k k' : Nat) (h : k ≤ k') :
    (l.take k).sum ≤ (l.take k').sum := by
  have h1 := List.sum_take_add_sum_drop (l.take k') k
  rw [List.take_take, Nat.min_eq_left h] at h1
  omega

lemma take_sum_getD_le (l : List Nat) (k : Nat) (h : k < l.length) :
    (l.take k).sum + l.getD k 0 ≤ l.sum := by
  have h1 := List.sum_take_add_sum_drop l k
  have h2 : l.drop k = l[k] :: l.drop (k + 1) := List.drop_eq_getElem_cons h
  have h3 : l.getD k 0 = l[k] := List.getD_eq_getElem l 0 h
  rw [h2, List.sum_cons] at h1
  omega

lemma triggerStall_succ (stalls : List Nat) (sc n c init : Nat) :
    triggerStall stalls sc (n + 1) c init
      = triggerStep stalls sc c (triggerStall stalls sc n c init) n := by
  rw [triggerStall, triggerStall, List.range_succ, List.foldl_append, List.foldl_cons,
    List.foldl_nil]

/-- The armed stall value is either the incoming one or the stall count of
some instruction sitting at stage index 1. -/
lemma triggerStall_spec (stalls : List Nat) (sc c : Nat) : ∀ n init,
    triggerStall stalls sc n c init = init ∨
    ∃ k, k < n ∧ stageIndexOf stalls c k = 1 ∧ 0 < stalls.getD k 0 ∧
      triggerStall stalls sc n c init = stalls.getD k 0 := by
  intro n
  induction n with
  | zero => intro init; left; rfl
  | succ n ih =>
    intro init
    rw [triggerStall_succ]
    rcases ih init with h | ⟨k, hk, h1, h2, h3⟩
    · rw [h, triggerStep]
      split
      · split
        · rename_i hc
          right
          exact ⟨n, by omega, hc.1, hc.2.1, rfl⟩
        · left; rfl
      · left; rfl
    · rw [h3, triggerStep]
      split
      · split
        · rename_i hc
          omega
        · right; exact ⟨k, by omega, h1, h2, rfl⟩
      · right; exact ⟨k, by omega, h1, h2, rfl⟩

/-! ### The run invariant -/

/-- Invariant of every reachable state of a started run. -/
def Inv (s : SimulationState) : Prop :=
  0 < s.instructions.length ∧
  s.stageCount = 5 ∧
  s.stalls.length = s.instructions.length ∧
  (s.isFinished = true → s.currentCycle = completionOf s) ∧
  (s.isFinished = false → s.currentCycle + s.currentStallCycles ≤ completionOf s) ∧
  (∃ c, s.instructionStages = computeStages s.stalls s.stageCount s.instructions.length c)

lemma inv_start (prev : SimulationState) (instrs : List Nat) (h : instrs ≠ []) :
    Inv (startSimulation prev instrs) := by
  have hne : instrs.isEmpty = false := by
    simp [List.isEmpty_iff, h]
  rw [startSimulation, if_neg (by simp [hne])]
  have hlen : 0 < instrs.length := List.length_pos.mpr h
  refine ⟨hlen, rfl, ?_, by simp, ?_, 1, ?_⟩
  · simp [detectHazards]
  · intro _
    rw [completionOf]
    simp only [DEFAULT_STAGE_COUNT]
    rw [if_pos hlen]
    omega
  · simp only [DEFAULT_STAGE_COUNT, computeStages]
    apply List.map_congr_left
    intro k _
    simp only [stageIndexOf, calculatePrecedingStalls]
    rcases Nat.eq_zero_or_pos k with hk | hk
    · subst hk
      norm_num
    · split_ifs <;> first | rfl | (exfalso; omega)

lemma inv_step (s : SimulationState) (h : Inv s) : Inv (calculateNextState s) := by
  obtain ⟨h1, h2, h3, h4, h5, c0, h6⟩ := h
  by_cases hr : s.isRunning = true
  · by_cases hf : s.isFinished = false
    · by_cases hst : 0 < s.currentStallCycles
      · rw [calculateNextState_stall s hr hf hst]
        refine ⟨h1, h2, h3, ?_, ?_, c0, h6⟩
        · intro hc
          exact absurd hc (by simp [hf])
        · intro _
          have := h5 hf
          show s.currentCycle + 1 + (s.currentStallCycles - 1) ≤ completionOf s
          omega
      · have hst0 : s.currentStallCycles = 0 := by omega
        by_cases hfin : completionOf s < s.currentCycle + 1
        · rw [calculateNextState_normal_fin s hr hf hst0 hfin]
          refine ⟨h1, h2, h3, fun _ => rfl, ?_, s.currentCycle + 1, rfl⟩
          intro hc
          exact absurd hc (by simp)
        · rw [calculateNextState_normal_notfin s hr hf hst0 hfin]
          refine ⟨h1, h2, h3, ?_, ?_, s.currentCycle + 1, rfl⟩
          · intro hc
            exact absurd hc (by simp)
          · intro _
            show s.currentCycle + 1 + triggerStall s.stalls s.stageCount
                s.instructions.length (s.currentCycle + 1) s.currentStallCycles ≤ completionOf s
            rcases triggerStall_spec s.stalls s.stageCount (s.currentCycle + 1)
                s.instructions.length s.currentStallCycles with ht | ⟨k, hk, hsi, hpos, heq⟩
            · rw [ht, hst0]
              omega
            · rw [heq]
              rw [stageIndexOf, calculatePrecedingStalls] at hsi
              have hcyc : s.currentCycle + 1 = k + 2 + (s.stalls.take k).sum := by omega
              have hb := take_sum_getD_le s.stalls k (by omega)
              rw [completionOf, if_pos h1] at hfin ⊢
              omega
    · rw [calculateNextState_not_running s (Or.inr (by simpa using hf))]
      exact ⟨h1, h2, h3, h4, h5, c0, h6⟩
  · rw [calculateNextState_not_running s (Or.inl (by simpa using hr))]
    exact ⟨h1, h2, h3, h4, h5, c0, h6⟩

lemma inv_pause (s : SimulationState) (h : Inv s) : Inv (pauseSimulation s) := by
  rw [pauseSimulation]
  split
  · exact h
  · exact h

lemma inv_resume (s : SimulationState) (h : Inv s) : Inv (resumeSimulation s) := by
  rw [resumeSimulation]
  split
  · exact h
  · exact h

lemma reachable_inv (s : SimulationState) (h : Reachable s) : Inv s := by
  induction h with
  | start prev instrs hne => exact inv_start prev instrs hne
  | step s _ ih => exact inv_step s ih
  | pause s _ ih => exact inv_pause s ih
  | resume s _ ih => exact inv_resume s ih

lemma computeStages_length (stalls : List Nat) (sc n c : Nat) :
    (computeStages stalls sc n c).length = n := by
  simp [computeStages]

lemma computeStages_getElem? (stalls : List Nat) (sc n c k : Nat) (hk : k < n) :
    (computeStages stalls sc n c)[k]? =
      some (if 0 ≤ stageIndexOf stalls c k ∧ stageIndexOf stalls c k < (sc : Int)
            then some (stageIndexOf stalls c k).toNat else none) := by
  simp [computeStages, hk]

/-- The stage index is strictly decreasing along instruction indices, for
any cycle: a later instruction always sits at a strictly earlier stage. -/
lemma computeStages_strictAnti (stalls : List Nat) (sc n c k k' v v' : Nat)
    (hkk : k < k')
    (h1 : (computeStages stalls sc n c)[k]? = some (some v))
    (h2 : (computeStages stalls sc n c)[k']? = some (some v')) : v' < v := by
  have hk : k < n := by
    by_contra hcon
    rw [List.getElem?_eq_none (by rw [computeStages_length]; omega)] at h1
    cases h1
  have hk' : k' < n := by
    by_contra hcon
    rw [List.getElem?_eq_none (by rw [computeStages_length]; omega)] at h2
    cases h2
  rw [computeStages_getElem? stalls sc n c k hk] at h1
  rw [computeStages_getElem? stalls sc n c k' hk'] at h2
  rw [Option.some.injEq] at h1 h2
  split at h1
  · rename_i hc1
    split at h2
    · rename_i hc2
      rw [Option.some.injEq] at h1 h2
      have hAB := take_sum_le stalls k k' (Nat.le_of_lt hkk)
      rw [stageIndexOf, calculatePrecedingStalls] at hc1 hc2 h1 h2
      omega
    · cases h2
  · cases h1

/-- C10: in every state reachable by start followed by any sequence of
advance calls, the per-instruction stage mapping is injective on its
non-null entries; `stageIndex = nextCycle - k - 1 - precedingStalls(k)` is
strictly decreasing in `k`, so no two distinct instructions occupy the same
pipeline stage in the same cycle. -/
theorem stage_occupancy_injective (s : SimulationState) (hs : Reachable s) :
    (∀ k k' v v' : Nat, k < k' → s.instructionStages[k]? = some (some v) →
      s.instructionStages[k']? = some (some v') → v' < v) ∧
    (∀ k k' v : Nat, k ≠ k' → s.instructionStages[k]? = some (some v) →
      s.instructionStages[k']? = some (some v) → False) := by
  obtain ⟨h1, h2, h3, h4, h5, c0, h6⟩ := reachable_inv s hs
  constructor
  · intro k k' v v' hkk hv hv'
    rw [h6] at hv hv'
    exact computeStages_strictAnti _ _ _ _ _ _ _ _ hkk hv hv'
  · intro k k' v hne hv hv'
    rw [h6] at hv hv'
    rcases Nat.lt_or_ge k k' with h | h
    · exact absurd (computeStages_strictAnti _ _ _ _ _ _ _ _ h hv hv') (by omega)
    · have h' : k' < k := by omega
      exact absurd (computeStages_strictAnti _ _ _ _ _ _ _ _ h' hv' hv) (by omega)

/-- Witness for `stage_occupancy_injective`: after one advance on a
two-instruction run, instruction 0 is at stage 1 and instruction 1 at
stage 0, and the strict-decrease conclusion gives 0 < 1. -/
theorem stage_occupancy_injective_witness :
    (calculateNextState (startSimulation initialState
        [0x00a63820, 0x00850820])).instructionStages[0]? = some (some 1) ∧
    (calculateNextState (startSimulation initialState
        [0x00a63820, 0x00850820])).instructionStages[1]? = some (some 0) ∧
    (0 : Nat) < 1 :=
  ⟨by decide, by decide,
   (stage_occupancy_injective _
      (Reachable.step _ (Reachable.start initialState [0x00a63820, 0x00850820]
        (by decide)))).1
     0 1 1 0 (by omega) (by decide) (by decide)⟩

/-- C8: on every reachable state of a started run, `currentCycle` never
exceeds the completion cycle and is not decreased by an advance call,
including cycles advanced while a stall is active. -/
theorem cycle_monotone (s : SimulationState) (hs : Reachable s) :
    s.currentCycle ≤ completionOf s ∧
    s.currentCycle ≤ (calculateNextState s).currentCycle := by
  obtain ⟨h1, h2, h3, h4, h5, _, _⟩ := reachable_inv s hs
  have hle : s.currentCycle ≤ completionOf s := by
    by_cases hf : s.isFinished = true
    · rw [h4 hf]
    · have hf' : s.isFinished = false := by simp at hf; exact hf
      have := h5 hf'
      omega
  refine ⟨hle, ?_⟩
  by_cases hr : s.isRunning = true
  · by_cases hf : s.isFinished = false
    · by_cases hst : 0 < s.currentStallCycles
      · rw [calculateNextState_stall s hr hf hst]
        show s.currentCycle ≤ s.currentCycle + 1
        omega
      · have hst0 : s.currentStallCycles = 0 := by omega
        by_cases hfin : completionOf s < s.currentCycle + 1
        · rw [calculateNextState_normal_fin s hr hf hst0 hfin]
          show s.currentCycle ≤ completionOf s
          exact hle
        · rw [calculateNextState_normal_notfin s hr hf hst0 hfin]
          show s.currentCycle ≤ s.currentCycle + 1
          omega
    · rw [calculateNextState_not_running s (Or.inr (by simpa using hf))]
  · rw [calculateNextState_not_running s (Or.inl (by simpa using hr))]

/-- Witness for `cycle_monotone` on a freshly started single-instruction run. -/
theorem cycle_monotone_witness :
    (startSimulation initialState [0x00a63820]).currentCycle
      ≤ completionOf (startSimulation initialState [0x00a63820]) ∧
    (startSimulation initialState [0x00a63820]).currentCycle
      ≤ (calculateNextState (startSimulation initialState [0x00a63820])).currentCycle :=
  cycle_monotone _ (Reachable.start initialState [0x00a63820] (by decide))

/-- C6: on every running, unfinished reachable state, advance marks the run
finished exactly when the next cycle exceeds
`completionCycle = numInstructions + stageCount - 1 + totalStallCycles`;
on finishing, the reported cycle is capped at the completion cycle and the
running flag is cleared; and the total stall sum satisfies
`totalStallCycles = completionCycle - (numInstructions + stageCount - 1)`. -/
theorem completion_finish (s : SimulationState) (hs : Reachable s)
    (hr : s.isRunning = true) (hf : s.isFinished = false) :
    ((calculateNextState s).isFinished = true ↔ completionOf s < s.currentCycle + 1) ∧
    ((calculateNextState s).isFinished = true →
      (calculateNextState s).currentCycle = completionOf s ∧
      (calculateNextState s).isRunning = false) ∧
    s.stalls.sum = completionOf s - (s.instructions.length + s.stageCount - 1) := by
  obtain ⟨h1, h2, h3, h4, h5, _, _⟩ := reachable_inv s hs
  have hsum : s.stalls.sum = completionOf s - (s.instructions.length + s.stageCount - 1) := by
    rw [completionOf, if_pos h1]
    omega
  by_cases hst : 0 < s.currentStallCycles
  · have hineq := h5 hf
    rw [calculateNextState_stall s hr hf hst]
    refine ⟨⟨fun hc => absurd hc (by simp [hf]), fun hc => absurd hc (by omega)⟩,
      fun hc => absurd hc (by simp [hf]), hsum⟩
  · have hst0 : s.currentStallCycles = 0 := by omega
    by_cases hfin : completionOf s < s.currentCycle + 1
    · rw [calculateNextState_normal_fin s hr hf hst0 hfin]
      exact ⟨⟨fun _ => hfin, fun _ => rfl⟩, fun _ => ⟨rfl, rfl⟩, hsum⟩
    · rw [calculateNextState_normal_notfin s hr hf hst0 hfin]
      exact ⟨⟨fun hc => absurd hc (by simp), fun hc => absurd hc hfin⟩,
        fun hc => absurd hc (by simp), hsum⟩

/-- Witness for `completion_finish` on a freshly started single-instruction
run: cycle 2 does not exceed the completion cycle 5, so the advance does
not finish the run. -/
theorem completion_finish_witness :
    ((calculateNextState (startSimulation initialState [0x00a63820])).isFinished = true ↔
      completionOf (startSimulation initialState [0x00a63820]) <
        (startSimulation initialState [0x00a63820]).currentCycle + 1) ∧
    (startSimulation initialState [0x00a63820]).stalls.sum
      = completionOf (startSimulation initialState [0x00a63820]) -
        ((startSimulation initialState [0x00a63820]).instructions.length +
          (startSimulation initialState [0x00a63820]).stageCount - 1) :=
  ⟨(completion_finish _ (Reachable.start initialState [0x00a63820] (by decide))
      (by decide) (by decide)).1,
   (completion_finish _ (Reachable.start initialState [0x00a63820] (by decide))
      (by decide) (by decide)).2.2⟩

/-- C7: on a running, unfinished state with a positive stall counter,
advance decrements the stall counter by exactly 1, increments the cycle by
exactly 1, and leaves every other field — including the per-instruction
stage mapping, hazards, forwardings, stalls and flags — unchanged. -/
theorem stall_frame (s : SimulationState)
    (hr : s.isRunning = true) (hf : s.isFinished = false)
    (hst : 0 < s.currentStallCycles) :
    (calculateNextState s).currentCycle = s.currentCycle + 1 ∧
    (calculateNextState s).currentStallCycles = s.currentStallCycles - 1 ∧
    (calculateNextState s).instructionStages = s.instructionStages ∧
    (calculateNextState s).instructions = s.instructions ∧
    (calculateNextState s).maxCycles = s.maxCycles ∧
    (calculateNextState s).isRunning = s.isRunning ∧
    (calculateNextState s).stageCount = s.stageCount ∧
    (calculateNextState s).isFinished = s.isFinished ∧
    (calculateNextState s).registerUsage = s.registerUsage ∧
    (calculateNextState s).hazards = s.hazards ∧
    (calculateNextState s).forwardings = s.forwardings ∧
    (calculateNextState s).stalls = s.stalls ∧
    (calculateNextState s).forwardingEnabled = s.forwardingEnabled := by
  rw [calculateNextState_stall s hr hf hst]
  exact ⟨rfl, rfl, rfl, rfl, rfl, rfl, rfl, rfl, rfl, rfl, rfl, rfl, rfl⟩

/-- A literal running state with an active stall, used as a witness input. -/
def stalledState : SimulationState :=
  { initialState with
      instructions := [1],
      currentCycle := 3,
      isRunning := true,
      currentStallCycles := 2 }

/-- Witness for `stall_frame` on a literal stalled state. -/
theorem stall_frame_witness :
    (calculateNextState stalledState).currentCycle = 3 + 1 ∧
    (calculateNextState stalledState).currentStallCycles = 2 - 1 ∧
    (calculateNextState stalledState).instructionStages = stalledState.instructionStages :=
  ⟨(stall_frame stalledState rfl rfl (by decide)).1,
   (stall_frame stalledState rfl rfl (by decide)).2.1,
   (stall_frame stalledState rfl rfl (by decide)).2.2.1⟩

/-- C9: advance on a state that is not running or already finished returns
the state unchanged (in particular before any start), and resume on a
finished or never-started (cycle 0) state returns the state unchanged;
both are total functions. -/
theorem lifecycle_noop_guards (s : SimulationState) :
    (s.isRunning = false ∨ s.isFinished = true → calculateNextState s = s) ∧
    (s.isFinished = true ∨ s.currentCycle = 0 → resumeSimulation s = s) := by
  refine ⟨calculateNextState_not_running s, fun hc => ?_⟩
  rw [resumeSimulation, if_neg]
  rintro ⟨-, hcyc, hfin⟩
  rcases hc with hc | hc
  · rw [hc] at hfin
    cases hfin
  · omega

/-- Witness for `lifecycle_noop_guards` at the never-started initial state. -/
theorem lifecycle_noop_guards_witness :
    calculateNextState initialState = initialState ∧
    resumeSimulation initialState = initialState :=
  ⟨(lifecycle_noop_guards initialState).1 (Or.inl rfl),
   (lifecycle_noop_guards initialState).2 (Or.inr rfl)⟩

end MipsViewer
